import Mathlib

/-!
# Verification of the credential-rotation YouTube API client

Shallow embedding of `src/core/youtube_api.py`:

* `parse_duration` — the DurationCodec (`parse_duration`, lines 154–175);
* `KMState` and its operations — the CredentialPool (`APIKeyManager`);
* `load_api_keys` — credential sourcing (`APIKeyManager._load_api_keys`);
* `classify_response` — one attempt of the RequestExecutor
  (`_make_api_request`, lines 194–221);
* `get_playlist_videos` — the Paginator (`get_playlist_videos` /
  `search_videos`).

Machine integers are modelled as `Int`/`Nat` (Python integers are unbounded),
fallible operations return explicit result types, and the persisted state file
is a field of the pool state.
-/

namespace YoutubeApi

/-! ## DurationCodec: `parse_duration`

The Python source is
```
pattern = r'PT(?:(\d+)H)?(?:(\d+)M)?(?:(\d+)S)?'
match = re.match(pattern, duration_str)
```
`re.match` anchors at the start of the string only (prefix match).  Each
optional group is `(\d+)` followed by a fixed letter; since the letters are
not digits, the greedy digit run never needs backtracking, so the regex is
equivalent to the sequential component matcher below.
-/

/-- Numeric value of a digit string, as `int()` computes it. -/
def natOfDigits (ds : List Char) : Nat :=
  ds.foldl (fun a c => a * 10 + (c.toNat - '0'.toNat)) 0

/-- One optional regex component `(?:(\d+)X)?`: take the greedy digit run; if
it is non-empty and followed by the component letter, consume it and return
its value, otherwise leave the input unchanged and contribute `0`
(`int(match.group(i) or 0)`). -/
def matchComp (letter : Char) (cs : List Char) : Nat × List Char :=
  let ds := cs.takeWhile Char.isDigit
  let rest := cs.dropWhile Char.isDigit
  if ds ≠ [] then
    match rest with
    | c :: rest2 => if c = letter then (natOfDigits ds, rest2) else (0, cs)
    | [] => (0, cs)
  else (0, cs)

/-- The regex applied to a character list: the literal `PT`, then the three
optional components in order.  A string whose start does not offer `P` then
`T` does not match at all (`re.match` returns `None`), giving `0`. -/
def parseDurList : List Char → Nat
  | a :: b :: cs =>
    if a = 'P' ∧ b = 'T' then
      let (h, r1) := matchComp 'H' cs
      let (m, r2) := matchComp 'M' r1
      let (sec, _) := matchComp 'S' r2
      h * 3600 + m * 60 + sec
    else 0
  | _ => 0

/-- `parse_duration` (src/core/youtube_api.py:154-175).  Returns
`hours*3600 + minutes*60 + seconds`; any string whose start does not match
the pattern (in particular one not beginning with `PT`) yields `0`.  The
`if not duration_str: return 0` guard is subsumed: the empty list falls to
the default branch. -/
def parse_duration (s : String) : Nat :=
  parseDurList s.toList

/-- One optional component of a well-formed duration string: the digit run
followed by the component letter, or nothing. -/
def durPart (o : Option (List Char)) (letter : Char) : List Char :=
  match o with
  | some d => d ++ [letter]
  | none => []

/-- The well-formed compact duration strings of the grammar
`PT(\d+H)?(\d+M)?(\d+S)?`, as a character list: each present component is a
non-empty digit run followed by its letter. -/
def durChars (oh om os : Option (List Char)) : List Char :=
  'P' :: 'T' :: (durPart oh 'H' ++ durPart om 'M' ++ durPart os 'S')

/-- Value contributed by an optional component. -/
def compVal (o : Option (List Char)) : Nat :=
  match o with
  | some d => natOfDigits d
  | none => 0

/-- A present component is a non-empty string of decimal digits. -/
def compWF (o : Option (List Char)) : Bool :=
  match o with
  | some d => !d.isEmpty && d.all Char.isDigit
  | none => true

lemma compWF_some {d : List Char} (h : compWF (some d) = true) :
    d ≠ [] ∧ ∀ c ∈ d, c.isDigit := by
  simp only [compWF, Bool.and_eq_true, Bool.not_eq_true', List.isEmpty_eq_false,
    List.all_eq_true] at h
  exact ⟨by simpa using h.1, fun c hc => h.2 c hc⟩

lemma takeWhile_digits_append {ds : List Char} (h : ∀ c ∈ ds, c.isDigit)
    {c : Char} (hc : ¬ c.isDigit) (rest : List Char) :
    (ds ++ c :: rest).takeWhile Char.isDigit = ds := by
  induction ds with
  | nil => simp [List.takeWhile, hc]
  | cons a as ih =>
    have ha : a.isDigit := h a (by simp)
    simp only [List.cons_append, List.takeWhile_cons, ha, if_true]
    rw [ih (fun x hx => h x (by simp [hx]))]

lemma dropWhile_digits_append {ds : List Char} (h : ∀ c ∈ ds, c.isDigit)
    {c : Char} (hc : ¬ c.isDigit) (rest : List Char) :
    (ds ++ c :: rest).dropWhile Char.isDigit = c :: rest := by
  induction ds with
  | nil => simp [List.dropWhile, hc]
  | cons a as ih =>
    have ha : a.isDigit := h a (by simp)
    simp only [List.cons_append, List.dropWhile_cons, ha, if_true]
    exact ih (fun x hx => h x (by simp [hx]))

/-- When the digit run of `cs` is followed by the matching letter, the
component consumes it. -/
lemma matchComp_hit {ds : List Char} (hne : ds ≠ [])
    (hd : ∀ c ∈ ds, c.isDigit) {letter : Char} (hl : ¬ letter.isDigit)
    (rest : List Char) :
    matchComp letter (ds ++ letter :: rest) = (natOfDigits ds, rest) := by
  unfold matchComp
  rw [takeWhile_digits_append hd hl rest, dropWhile_digits_append hd hl rest]
  simp [hne]

/-- When the first non-digit of `cs` is not the component letter (or `cs` has
no non-digit at all, or no digits), the component matches nothing. -/
lemma matchComp_miss {letter : Char} {cs : List Char}
    (h : ∀ c rest2, cs.dropWhile Char.isDigit = c :: rest2 → c ≠ letter) :
    matchComp letter cs = (0, cs) := by
  unfold matchComp
  by_cases hne : cs.takeWhile Char.isDigit = []
  · simp [hne]
  · simp only [hne, ne_eq, not_false_iff, if_true]
    match hrest : cs.dropWhile Char.isDigit with
    | [] => rfl
    | c :: rest2 =>
      have := h c rest2 hrest
      simp [this]

lemma matchComp_miss_of_comp {letter : Char} {ds : List Char}
    (hd : ∀ c ∈ ds, c.isDigit) {c : Char} (hc : ¬ c.isDigit)
    (hne : c ≠ letter) (rest : List Char) :
    matchComp letter (ds ++ c :: rest) = (0, ds ++ c :: rest) := by
  apply matchComp_miss
  intro c2 rest2 hdrop
  rw [dropWhile_digits_append hd hc rest] at hdrop
  cases hdrop
  exact hne

lemma matchComp_nil (letter : Char) : matchComp letter [] = (0, []) := by
  rfl

lemma parseDurList_PT (cs : List Char) :
    parseDurList ('P' :: 'T' :: cs) =
      (matchComp 'H' cs).1 * 3600 +
      (matchComp 'M' (matchComp 'H' cs).2).1 * 60 +
      (matchComp 'S' (matchComp 'M' (matchComp 'H' cs).2).2).1 := by
  simp [parseDurList]

/-- Master evaluation lemma: the regex matches the well-formed prefix and
ignores anything after it (when the seconds component is absent, the string
must end there for this statement; a present `S` component seals the match
against any trailing characters). -/
lemma parse_durChars_append (oh om os : Option (List Char))
    (hh : compWF oh = true) (hm : compWF om = true) (hs : compWF os = true)
    (t : List Char) (htail : os = none → t = []) :
    parse_duration (String.mk (durChars oh om os ++ t)) =
      3600 * compVal oh + 60 * compVal om + compVal os := by
  have hH : ¬ Char.isDigit 'H' := by decide
  have hM : ¬ Char.isDigit 'M' := by decide
  have hS : ¬ Char.isDigit 'S' := by decide
  have hMH : ('M' : Char) ≠ 'H' := by decide
  have hSH : ('S' : Char) ≠ 'H' := by decide
  have hSM : ('S' : Char) ≠ 'M' := by decide
  show parseDurList (durChars oh om os ++ t) = _
  rcases os with _ | sd
  · have ht : t = [] := htail rfl
    subst ht
    rcases oh with _ | hd <;> rcases om with _ | md
    · decide
    · obtain ⟨mdne, mdd⟩ := compWF_some hm
      simp only [durChars, durPart, List.cons_append, List.append_assoc,
        List.singleton_append, List.nil_append, List.append_nil]
      rw [parseDurList_PT]
      simp only [matchComp_miss_of_comp mdd hM hMH, matchComp_hit mdne mdd hM,
        matchComp_nil]
      simp [compVal]; ring
    · obtain ⟨hdne, hdd⟩ := compWF_some hh
      simp only [durChars, durPart, List.cons_append, List.append_assoc,
        List.singleton_append, List.nil_append, List.append_nil]
      rw [parseDurList_PT]
      simp only [matchComp_hit hdne hdd hH, matchComp_nil]
      simp [compVal]; ring
    · obtain ⟨hdne, hdd⟩ := compWF_some hh
      obtain ⟨mdne, mdd⟩ := compWF_some hm
      simp only [durChars, durPart, List.cons_append, List.append_assoc,
        List.singleton_append, List.nil_append, List.append_nil]
      rw [parseDurList_PT]
      simp only [matchComp_hit hdne hdd hH, matchComp_hit mdne mdd hM,
        matchComp_nil]
      simp [compVal]; ring
  · obtain ⟨sdne, sdd⟩ := compWF_some hs
    rcases oh with _ | hd <;> rcases om with _ | md
    · simp only [durChars, durPart, List.cons_append, List.append_assoc,
        List.singleton_append, List.nil_append]
      rw [parseDurList_PT]
      simp only [matchComp_miss_of_comp sdd hS hSH,
        matchComp_miss_of_comp sdd hS hSM, matchComp_hit sdne sdd hS]
      simp [compVal]
    · obtain ⟨mdne, mdd⟩ := compWF_some hm
      simp only [durChars, durPart, List.cons_append, List.append_assoc,
        List.singleton_append, List.nil_append]
      rw [parseDurList_PT]
      simp only [matchComp_miss_of_comp mdd hM hMH, matchComp_hit mdne mdd hM,
        matchComp_hit sdne sdd hS]
      simp [compVal]; ring
    · obtain ⟨hdne, hdd⟩ := compWF_some hh
      simp only [durChars, durPart, List.cons_append, List.append_assoc,
        List.singleton_append, List.nil_append]
      rw [parseDurList_PT]
      simp only [matchComp_hit hdne hdd hH, matchComp_miss_of_comp sdd hS hSM,
        matchComp_hit sdne sdd hS]
      simp [compVal]; ring
    · obtain ⟨hdne, hdd⟩ := compWF_some hh
      obtain ⟨mdne, mdd⟩ := compWF_some hm
      simp only [durChars, durPart, List.cons_append, List.append_assoc,
        List.singleton_append, List.nil_append]
      rw [parseDurList_PT]
      simp only [matchComp_hit hdne hdd hH, matchComp_hit mdne mdd hM,
        matchComp_hit sdne sdd hS]
      simp [compVal]; ring

/-- Strings that do not begin with the literal `PT` never match the pattern
and decode to 0. -/
lemma parse_duration_no_PT (s : String) (hs : s.toList.take 2 ≠ ['P', 'T']) :
    parse_duration s = 0 := by
  show parseDurList s.toList = 0
  rcases h : s.toList with _ | ⟨a, _ | ⟨b, cs⟩⟩
  · rfl
  · rfl
  · rw [h] at hs
    have hab : ¬ (a = 'P' ∧ b = 'T') := by
      rintro ⟨rfl, rfl⟩
      exact hs rfl
    simp [parseDurList, hab]

/-- Characters that can occur in a well-formed compact duration string. -/
def durCharsOk (c : Char) : Bool :=
  c.isDigit || c = 'P' || c = 'T' || c = 'H' || c = 'M' || c = 'S'

lemma durPart_all_ok {o : Option (List Char)} {letter : Char}
    (hok : durCharsOk letter = true) (h : compWF o = true) :
    (durPart o letter).all durCharsOk = true := by
  rcases o with _ | d
  · rfl
  · have hd := (compWF_some h).2
    simp only [durPart, List.all_append, Bool.and_eq_true, List.all_cons,
      List.all_nil, Bool.and_true]
    refine ⟨?_, hok⟩
    simp only [List.all_eq_true]
    intro c hc
    simp [durCharsOk, hd c hc]

lemma durChars_all_ok {oh om os : Option (List Char)}
    (hh : compWF oh = true) (hm : compWF om = true) (hs : compWF os = true) :
    (durChars oh om os).all durCharsOk = true := by
  simp only [durChars, List.all_cons, List.all_append, Bool.and_eq_true]
  exact ⟨by decide, by decide,
    ⟨durPart_all_ok (by decide) hh, durPart_all_ok (by decide) hm⟩,
    durPart_all_ok (by decide) hs⟩

/-- Membership in the compact duration grammar
`PT(\d+H)?(\d+M)?(\d+S)?` (a full match of the whole string). -/
def inDurationGrammar (s : String) : Prop :=
  ∃ oh om os, compWF oh = true ∧ compWF om = true ∧ compWF os = true ∧
    s = String.mk (durChars oh om os)

/-- C8 counterexample: `"PT2Mxy"` is not in the compact duration grammar
(it contains the letters `x` and `y`, which no grammar string contains),
yet `parse_duration` returns `120`, not `0` — `re.match` accepts a matching
prefix and ignores the rest, so the claim's clause "any string that does not
match the grammar returns 0" is false. -/
theorem C8_counterexample :
    ¬ inDurationGrammar "PT2Mxy" ∧ parse_duration "PT2Mxy" = 120 ∧
      (120 : Nat) ≠ 0 := by
  refine ⟨?_, by decide, by decide⟩
  rintro ⟨oh, om, os, hh, hm, hs, heq⟩
  have hl : "PT2Mxy".toList = durChars oh om os := congrArg String.toList heq
  have hall : (durChars oh om os).all durCharsOk = true :=
    durChars_all_ok hh hm hs
  rw [← hl] at hall
  exact absurd hall (by decide)

/-- C8 (amended): `parse_duration` is total by construction (it returns a
`Nat` for every input and has no failing path); `parse_duration "" = 0`;
every string not beginning with `PT` (i.e. on which no prefix of the pattern
matches) returns `0`; and on every well-formed grammar string it returns
`hours*3600 + minutes*60 + seconds` with absent components defaulting to
zero.  (The original claim's stronger clause — every string outside the
grammar returns `0` — fails because the regex matches prefixes; see the
counterexample.) -/
theorem C8_parse_duration_total_amended :
    parse_duration "" = 0 ∧
    (∀ s : String, s.toList.take 2 ≠ ['P', 'T'] → parse_duration s = 0) ∧
    (∀ oh om os, compWF oh = true → compWF om = true → compWF os = true →
      parse_duration (String.mk (durChars oh om os)) =
        3600 * compVal oh + 60 * compVal om + compVal os) := by
  refine ⟨rfl, parse_duration_no_PT, ?_⟩
  intro oh om os hh hm hs
  have h := parse_durChars_append oh om os hh hm hs [] (fun _ => rfl)
  simpa using h

/-- C8 witness: the amended theorem applied at `"XY"` (no `PT` prefix) and at
the grammar string `PT1H2M3S`. -/
theorem C8_parse_duration_total_amended_witness :
    parse_duration "XY" = 0 ∧
    parse_duration (String.mk (durChars (some ['1']) (some ['2'])
      (some ['3']))) = 3723 := by
  constructor
  · exact C8_parse_duration_total_amended.2.1 "XY" (by decide)
  · have h := C8_parse_duration_total_amended.2.2 (some ['1']) (some ['2'])
      (some ['3']) (by decide) (by decide) (by decide)
    rw [h]; decide

/-- C10: `parse_duration` matches only a prefix: a well-formed duration
prefix ending in a seconds component followed by arbitrary trailing
characters decodes to the value of the matched prefix (the trailing
characters are ignored, not rejected with 0), and every string not beginning
with `PT` decodes to 0. -/
theorem C10_parse_duration_prefix :
    (∀ oh om (sd t : List Char),
        compWF oh = true → compWF om = true → compWF (some sd) = true →
        parse_duration (String.mk (durChars oh om (some sd) ++ t)) =
          3600 * compVal oh + 60 * compVal om + natOfDigits sd) ∧
    (∀ s : String, s.toList.take 2 ≠ ['P', 'T'] → parse_duration s = 0) := by
  refine ⟨?_, parse_duration_no_PT⟩
  intro oh om sd t hh hm hs
  have h := parse_durChars_append oh om (some sd) hh hm hs t
    (fun hcon => by cases hcon)
  simpa [compVal] using h

/-- C10 witness: `parse_duration "PT1M30Sjunk" = 90` via the prefix theorem,
and a string without the `PT` prefix decodes to 0. -/
theorem C10_parse_duration_prefix_witness :
    parse_duration "PT1M30Sjunk" = 90 ∧ parse_duration "hello" = 0 := by
  constructor
  · have h := C10_parse_duration_prefix.1 none (some ['1']) ['3', '0']
      "junk".toList (by decide) (by decide) (by decide)
    have he : String.mk (durChars none (some ['1']) (some ['3', '0']) ++
        "junk".toList) = "PT1M30Sjunk" := by decide
    rw [he] at h
    rw [h]; decide
  · exact C10_parse_duration_prefix.2 "hello" (by decide)

/-! ## CredentialPool: `APIKeyManager` (src/core/youtube_api.py:24-147)

State of the manager plus the persisted state file.  Python integers are
unbounded, and the persisted `current_index` read back by
`_load_current_index` can be any integer (`state.get('current_index', 0)`
performs no clamping), so the cursor is an `Int`.  `exhausted_keys` is a
Python `set` of the integers that were `current_index` at rotation time; it
is modelled as a duplicate-free list (`exhaustedAdd` inserts only absent
elements), so its `length` is the set's cardinality. -/

structure KMState where
  api_keys : List String
  current_index : Int
  exhausted_keys : List Int
  state_file : Option Int
deriving Repr, DecidableEq

/-- `set.add`: insert preserving the no-duplicates representation. -/
def exhaustedAdd (ex : List Int) (i : Int) : List Int :=
  if i ∈ ex then ex else ex ++ [i]

/-- Python list indexing `xs[i]`: non-negative indices index from the front,
negative indices from the back, anything else raises `IndexError` (`none`). -/
def pyGet (xs : List String) (i : Int) : Option String :=
  if 0 ≤ i then xs[i.toNat]?
  else if 0 ≤ i + xs.length then xs[(i + xs.length).toNat]?
  else none

/-- `APIKeyManager.__init__` (lines 27-30): keys from `_load_api_keys`;
cursor from `_load_current_index`, which returns
`state.get('current_index', 0)` — the raw persisted integer, defaulting to
`0` when the file is missing, unreadable, or lacks the key — and
`exhausted_keys = set()`.  The file on disk is left as it was. -/
def mkManager (keys : List String) (file : Option Int) : KMState :=
  { api_keys := keys
    current_index := file.getD 0
    exhausted_keys := []
    state_file := file }

/-- Result of `get_current_key`: the returned key together with the index it
was found at (`self.current_index` at the `return`), a `YouTubeAPIError`
message, or a Python `IndexError` from `self.api_keys[self.current_index]`
with an out-of-range cursor. -/
inductive KeyResult where
  | ok (key : String) (idx : Int)
  | apiError (msg : String)
  | indexError
deriving Repr, DecidableEq

/-- The `while attempts < len(self.api_keys)` search loop of
`get_current_key` (lines 97-105): returns the result and the final value of
`self.current_index` (the loop mutates the cursor in place). -/
def findKey (keys : List String) (ex : List Int) : Int → Nat → KeyResult × Int
  | idx, 0 => (.apiError "No available API keys", idx)
  | idx, fuel + 1 =>
    if idx ∈ ex then
      findKey keys ex ((idx + 1) % (keys.length : Int)) fuel
    else
      match pyGet keys idx with
      | some k => (.ok k idx, idx)
      | none => (.indexError, idx)

/-- `APIKeyManager.get_current_key` (lines 82-105). -/
def get_current_key (s : KMState) : KeyResult × KMState :=
  if s.api_keys.isEmpty then
    (.apiError "No YouTube API keys found. Please set YOUTUBE_API_KEY or YOUTUBE_API_KEYS in .env file", s)
  else if s.api_keys.length ≤ s.exhausted_keys.length then
    (.apiError "All API keys have exceeded their quota. Please wait until tomorrow or add more API keys.", s)
  else
    ((findKey s.api_keys s.exhausted_keys s.current_index s.api_keys.length).1,
     { s with current_index :=
        (findKey s.api_keys s.exhausted_keys s.current_index s.api_keys.length).2 })

/-- `APIKeyManager.rotate_key` (lines 107-125): on `quota_exceeded` mark the
current cursor exhausted; always advance the cursor mod pool size and call
`_save_current_index`, which writes the new cursor to the state file. -/
def rotate_key (s : KMState) (reason : String) : KMState :=
  if s.api_keys.isEmpty then s
  else
    let ex := if reason = "quota_exceeded" then
        exhaustedAdd s.exhausted_keys s.current_index
      else s.exhausted_keys
    let ni := (s.current_index + 1) % (s.api_keys.length : Int)
    { api_keys := s.api_keys
      current_index := ni
      exhausted_keys := ex
      state_file := some ni }

/-- `APIKeyManager.get_key_count` (lines 141-143): total pool size. -/
def get_key_count (s : KMState) : Nat := s.api_keys.length

/-- `APIKeyManager.get_available_key_count` (lines 145-147):
`len(self.api_keys) - len(self.exhausted_keys)`. -/
def get_available_key_count (s : KMState) : Int :=
  (s.api_keys.length : Int) - (s.exhausted_keys.length : Int)

/-- The default attempt bound computed by `_make_api_request` when called
with `max_retries=None` (lines 190-191): `_key_manager.get_key_count()`,
the TOTAL number of keys. -/
def max_retries_default (s : KMState) : Nat := get_key_count s

/-- The pool operations whose interleavings the temporal claims quantify
over. -/
inductive PoolOp where
  | curr
  | rot (reason : String)

def applyOp (s : KMState) : PoolOp → KMState
  | .curr => (get_current_key s).2
  | .rot r => rotate_key s r

def runOps (s : KMState) (ops : List PoolOp) : KMState :=
  ops.foldl applyOp s

/-- The cursor invariant of the spec: `0 ≤ cursor < len(credentials)`. -/
def cursorInv (s : KMState) : Prop :=
  0 ≤ s.current_index ∧ s.current_index < (s.api_keys.length : Int)

lemma rotate_key_api_keys (s : KMState) (r : String) :
    (rotate_key s r).api_keys = s.api_keys := by
  unfold rotate_key
  split <;> rfl

lemma get_current_key_frame (s : KMState) :
    (get_current_key s).2.api_keys = s.api_keys ∧
    (get_current_key s).2.exhausted_keys = s.exhausted_keys ∧
    (get_current_key s).2.state_file = s.state_file := by
  unfold get_current_key
  split_ifs <;> simp

lemma exhaustedAdd_mono {ex : List Int} {i : Int} (j : Int) (h : i ∈ ex) :
    i ∈ exhaustedAdd ex j := by
  unfold exhaustedAdd
  split_ifs <;> simp [h]

lemma rotate_key_exhausted_mono {s : KMState} {r : String} {i : Int}
    (h : i ∈ s.exhausted_keys) : i ∈ (rotate_key s r).exhausted_keys := by
  unfold rotate_key
  split_ifs with h1 h2
  · exact h
  · exact exhaustedAdd_mono _ h
  · exact h

lemma applyOp_exhausted_mono {s : KMState} {i : Int}
    (h : i ∈ s.exhausted_keys) (op : PoolOp) :
    i ∈ (applyOp s op).exhausted_keys := by
  cases op with
  | curr =>
    show i ∈ (get_current_key s).2.exhausted_keys
    rw [(get_current_key_frame s).2.1]
    exact h
  | rot r => exact rotate_key_exhausted_mono h

lemma runOps_exhausted_mono {s : KMState} {i : Int}
    (h : i ∈ s.exhausted_keys) (ops : List PoolOp) :
    i ∈ (runOps s ops).exhausted_keys := by
  induction ops generalizing s with
  | nil => exact h
  | cons op ops ih => exact ih (applyOp_exhausted_mono h op)

lemma findKey_ok_not_exhausted {keys : List String} {ex : List Int} :
    ∀ (fuel : Nat) (idx : Int) (k : String) (j : Int),
      (findKey keys ex idx fuel).1 = KeyResult.ok k j → j ∉ ex := by
  intro fuel
  induction fuel with
  | zero => intro idx k j h; simp [findKey] at h
  | succ n ih =>
    intro idx k j h
    by_cases hm : idx ∈ ex
    · rw [findKey] at h
      simp only [hm, if_true] at h
      exact ih _ k j h
    · rw [findKey] at h
      simp only [hm, if_false] at h
      rcases hpg : pyGet keys idx with _ | k0 <;> rw [hpg] at h
      · simp at h
      · simp at h
        rw [← h.2]
        exact hm

lemma get_current_key_ok_not_exhausted {s : KMState} {k : String} {j : Int}
    (h : (get_current_key s).1 = KeyResult.ok k j) : j ∉ s.exhausted_keys := by
  unfold get_current_key at h
  by_cases h1 : s.api_keys.isEmpty = true
  · rw [if_pos h1] at h
    simp at h
  · rw [if_neg h1] at h
    by_cases h2 : s.api_keys.length ≤ s.exhausted_keys.length
    · rw [if_pos h2] at h
      simp at h
    · rw [if_neg h2] at h
      exact findKey_ok_not_exhausted _ _ k j h

lemma findKey_idx_range {keys : List String} {ex : List Int}
    (hlen : 0 < keys.length) :
    ∀ (fuel : Nat) (idx : Int), 0 ≤ idx → idx < (keys.length : Int) →
      0 ≤ (findKey keys ex idx fuel).2 ∧
        (findKey keys ex idx fuel).2 < (keys.length : Int) := by
  have hL : (0 : Int) < (keys.length : Int) := by exact_mod_cast hlen
  intro fuel
  induction fuel with
  | zero => intro idx h1 h2; simpa [findKey] using ⟨h1, h2⟩
  | succ n ih =>
    intro idx h1 h2
    by_cases hm : idx ∈ ex
    · rw [findKey]
      simp only [hm, if_true]
      exact ih _ (Int.emod_nonneg _ (by omega)) (Int.emod_lt_of_pos _ hL)
    · rw [findKey]
      simp only [hm, if_false]
      rcases hpg : pyGet keys idx with _ | k0 <;> simp [hpg, h1, h2]

/-- `rotate_key` applied `n` times. -/
def rotateIter (r : String) : Nat → KMState → KMState
  | 0, s => s
  | n + 1, s => rotateIter r n (rotate_key s r)

/-- `get_current_key` applied `n` times (only its state effect). -/
def currIter : Nat → KMState → KMState
  | 0, s => s
  | n + 1, s => currIter n (get_current_key s).2

/-- C1: evaluation of the code at the failing input.  With pool
`["A", "B"]` and index `0` already exhausted, `_make_api_request`'s default
bound is `get_key_count() = 2` (the total pool size, lines 190-191), while
`get_available_key_count()` — the value the function's own docstring
("default: number of available keys") and the claim prescribe — is `1`. -/
theorem C1_max_retries_uses_total_count :
    max_retries_default ⟨["A", "B"], 1, [0], none⟩ = 2 ∧
    get_available_key_count ⟨["A", "B"], 1, [0], none⟩ = 1 ∧
    ((max_retries_default ⟨["A", "B"], 1, [0], none⟩ : Int) ≠
      get_available_key_count ⟨["A", "B"], 1, [0], none⟩) := by
  refine ⟨rfl, rfl, ?_⟩
  decide

/-- C5 counterexample: with keys `["A", "B"]` and a persisted index of `5`,
construction loads the cursor unclamped, so `0 ≤ cursor < len(credentials)`
fails immediately after construction even though the pool is non-empty. -/
theorem C5_counterexample :
    (mkManager ["A", "B"] (some 5)).api_keys ≠ [] ∧
    (mkManager ["A", "B"] (some 5)).current_index = 5 ∧
    ¬ cursorInv (mkManager ["A", "B"] (some 5)) := by
  refine ⟨by decide, rfl, ?_⟩
  intro h
  obtain ⟨h1, h2⟩ := h
  simp [mkManager] at h2

/-- C5 (amended): the cursor invariant holds after construction provided the
persisted index (when present) is itself in range — the loader does not
clamp, so an out-of-range persisted value violates it (see the
counterexample) — and it is established by every `rotate_key` on a
non-empty pool and preserved by every `get_current_key`. -/
theorem C5_cursor_invariant_amended :
    (∀ (keys : List String) (file : Option Int), keys ≠ [] →
      (∀ v ∈ file, 0 ≤ v ∧ v < (keys.length : Int)) →
      cursorInv (mkManager keys file)) ∧
    (∀ (s : KMState) (r : String), s.api_keys ≠ [] →
      cursorInv (rotate_key s r)) ∧
    (∀ s : KMState, cursorInv s → cursorInv (get_current_key s).2) := by
  refine ⟨?_, ?_, ?_⟩
  · intro keys file hne hf
    have hlen : 0 < keys.length := List.length_pos.mpr hne
    rcases file with _ | v
    · refine ⟨le_refl 0, ?_⟩
      show ((0 : Int) < (keys.length : Int))
      exact_mod_cast hlen
    · have hv := hf v rfl
      exact ⟨hv.1, hv.2⟩
  · intro s r h
    have hlen : 0 < s.api_keys.length := List.length_pos.mpr h
    have hL : (0 : Int) < (s.api_keys.length : Int) := by exact_mod_cast hlen
    have hne : s.api_keys.isEmpty = false := by
      simp [List.isEmpty_iff, h]
    unfold rotate_key
    rw [if_neg (by simp [hne])]
    exact ⟨Int.emod_nonneg _ (by omega), Int.emod_lt_of_pos _ hL⟩
  · intro s h
    unfold get_current_key
    by_cases h1 : s.api_keys.isEmpty = true
    · rw [if_pos h1]
      exact h
    · rw [if_neg h1]
      by_cases h2 : s.api_keys.length ≤ s.exhausted_keys.length
      · rw [if_pos h2]
        exact h
      · rw [if_neg h2]
        have hlen : 0 < s.api_keys.length := by
          have hni : s.api_keys ≠ [] := by simpa [List.isEmpty_iff] using h1
          exact List.length_pos.mpr hni
        have hr := @findKey_idx_range s.api_keys s.exhausted_keys hlen
          s.api_keys.length s.current_index h.1 h.2
        exact ⟨hr.1, hr.2⟩

/-- C5 witness: the amended theorem at concrete states — construction with
an in-range persisted index, a rotation from an out-of-range cursor, and a
`get_current_key` that has to skip an exhausted index. -/
theorem C5_cursor_invariant_amended_witness :
    cursorInv (mkManager ["A", "B"] (some 1)) ∧
    cursorInv (rotate_key ⟨["A", "B"], 5, [], none⟩ "quota_exceeded") ∧
    cursorInv (get_current_key ⟨["A", "B"], 1, [0], none⟩).2 := by
  refine ⟨?_, ?_, ?_⟩
  · exact C5_cursor_invariant_amended.1 ["A", "B"] (some 1) (by decide)
      (by intro v hv; simp at hv; subst hv; constructor <;> decide)
  · exact C5_cursor_invariant_amended.2.1 ⟨["A", "B"], 5, [], none⟩
      "quota_exceeded" (by decide)
  · exact C5_cursor_invariant_amended.2.2 ⟨["A", "B"], 1, [0], none⟩
      ⟨by decide, by decide⟩

/-- C6 counterexample: with keys `["A", "B"]` and a (reachable, persisted)
starting cursor of `2`, two rotations land the cursor on `0`, not back on
`2`: round-robin closure fails for starting cursors outside
`[0, len(credentials))`. -/
theorem C6_counterexample :
    (mkManager ["A", "B"] (some 2)).api_keys.length = 2 ∧
    (mkManager ["A", "B"] (some 2)).current_index = 2 ∧
    (rotateIter "quota_exceeded" 2 (mkManager ["A", "B"] (some 2))).current_index
      = 0 ∧
    (0 : Int) ≠ 2 := by
  refine ⟨rfl, rfl, ?_, by decide⟩
  decide

lemma rotateIter_api_keys (r : String) (n : Nat) (s : KMState) :
    (rotateIter r n s).api_keys = s.api_keys := by
  induction n generalizing s with
  | zero => rfl
  | succ m ih =>
    show (rotateIter r m (rotate_key s r)).api_keys = s.api_keys
    rw [ih, rotate_key_api_keys]

lemma rotateIter_cursor (r : String) :
    ∀ (n : Nat) (s : KMState), s.api_keys ≠ [] →
      (rotateIter r (n + 1) s).current_index =
        (s.current_index + (n + 1)) % (s.api_keys.length : Int) := by
  intro n
  induction n with
  | zero =>
    intro s h
    have hne : ¬ s.api_keys.isEmpty = true := by simp [List.isEmpty_iff, h]
    show (rotate_key s r).current_index = _
    unfold rotate_key
    rw [if_neg hne]
    show (s.current_index + 1) % (s.api_keys.length : Int) = _
    norm_num
  | succ m ih =>
    intro s h
    have hne : ¬ s.api_keys.isEmpty = true := by simp [List.isEmpty_iff, h]
    have hkeys : (rotate_key s r).api_keys = s.api_keys :=
      rotate_key_api_keys s r
    have h2 : (rotate_key s r).api_keys ≠ [] := by rw [hkeys]; exact h
    show (rotateIter r (m + 1) (rotate_key s r)).current_index = _
    rw [ih (rotate_key s r) h2, hkeys]
    have hcur : (rotate_key s r).current_index =
        (s.current_index + 1) % (s.api_keys.length : Int) := by
      unfold rotate_key
      rw [if_neg hne]
    rw [hcur, Int.emod_add_emod]
    congr 1
    push_cast
    ring

/-- C6 (amended): round-robin closure holds from every starting cursor that
satisfies the invariant `0 ≤ cursor < len(credentials)`: on a non-empty
pool, `len(credentials)` rotations return the cursor to its starting value.
(For a cursor outside that range — reachable, since the persisted index is
loaded unclamped — the closure fails; see the counterexample.) -/
theorem C6_round_robin_amended (s : KMState) (r : String)
    (hne : s.api_keys ≠ []) (hinv : cursorInv s) :
    (rotateIter r s.api_keys.length s).current_index = s.current_index := by
  have hlen : 0 < s.api_keys.length := List.length_pos.mpr hne
  obtain ⟨m, hm⟩ : ∃ m, s.api_keys.length = m + 1 :=
    ⟨s.api_keys.length - 1, by omega⟩
  rw [hm]
  rw [rotateIter_cursor r m s hne]
  have hLm : ((m : Int) + 1) = (s.api_keys.length : Int) := by
    rw [hm]; push_cast; ring
  rw [show (s.current_index + ((m : Int) + 1)) =
      s.current_index + (s.api_keys.length : Int) * 1 by rw [← hLm]; ring]
  rw [Int.add_mul_emod_self_left]
  exact Int.emod_eq_of_lt hinv.1 hinv.2

/-- C6 witness: the amended closure at the concrete pool `["A", "B"]` with
in-range starting cursor `1`. -/
theorem C6_round_robin_amended_witness :
    (rotateIter "quota_exceeded" 2 ⟨["A", "B"], 1, [], none⟩).current_index
      = 1 := by
  have h := C6_round_robin_amended ⟨["A", "B"], 1, [], none⟩ "quota_exceeded"
    (by decide) ⟨by decide, by decide⟩
  simpa using h

/-- C7: once an index is in `exhausted_keys`, no later `get_current_key`
success — after any interleaving of `get_current_key` and `rotate_key`
calls within the process — selects that index again: the search loop only
returns a key found at an index outside `exhausted_keys`, and the exhausted
set only grows. -/
theorem C7_exhausted_never_returned (s : KMState) (i : Int)
    (hi : i ∈ s.exhausted_keys) (ops : List PoolOp) (k : String) (j : Int)
    (h : (get_current_key (runOps s ops)).1 = KeyResult.ok k j) : j ≠ i := by
  intro hji
  have hj := get_current_key_ok_not_exhausted h
  have hmem := runOps_exhausted_mono hi ops
  rw [hji] at hj
  exact hj hmem

/-- C7 witness: index 0 exhausted; `get_current_key` skips it and returns
the key at index 1 ≠ 0. -/
theorem C7_exhausted_never_returned_witness :
    (get_current_key (runOps ⟨["A", "B"], 0, [0], none⟩
      [PoolOp.curr])).1 = KeyResult.ok "B" 1 ∧ (1 : Int) ≠ 0 := by
  constructor
  · decide
  · exact C7_exhausted_never_returned ⟨["A", "B"], 0, [0], none⟩ 0 (by decide)
      [PoolOp.curr] "B" 1 (by decide)

/-- C9: `get_current_key` never writes the state file — after any number of
`get_current_key` calls the persisted value is unchanged — while
`rotate_key` always writes the advanced cursor to it; and `get_current_key`
does advance the in-memory cursor past an exhausted index as a side effect
(concrete conjunct). -/
theorem C9_current_does_not_persist :
    (∀ (n : Nat) (s : KMState), (currIter n s).state_file = s.state_file) ∧
    (∀ (s : KMState) (r : String), s.api_keys ≠ [] →
      (rotate_key s r).state_file =
        some ((s.current_index + 1) % (s.api_keys.length : Int))) ∧
    ((get_current_key ⟨["A", "B"], 0, [0], some 0⟩).2.current_index = 1 ∧
     (get_current_key ⟨["A", "B"], 0, [0], some 0⟩).2.state_file = some 0) := by
  refine ⟨?_, ?_, by decide, by decide⟩
  · intro n
    induction n with
    | zero => intro s; rfl
    | succ m ih =>
      intro s
      show (currIter m (get_current_key s).2).state_file = s.state_file
      rw [ih, (get_current_key_frame s).2.2]
  · intro s r h
    have hne : ¬ s.api_keys.isEmpty = true := by simp [List.isEmpty_iff, h]
    unfold rotate_key
    rw [if_neg hne]

/-- C9 witness: three `get_current_key` calls leave the persisted value
`some 7` untouched; a non-quota (`"manual"`) rotation overwrites it. -/
theorem C9_current_does_not_persist_witness :
    (currIter 3 ⟨["A", "B"], 0, [0], some 7⟩).state_file = some 7 ∧
    (rotate_key ⟨["A", "B"], 0, [], some 7⟩ "manual").state_file = some 1 := by
  constructor
  · exact C9_current_does_not_persist.1 3 ⟨["A", "B"], 0, [0], some 7⟩
  · rw [C9_current_does_not_persist.2.1 ⟨["A", "B"], 0, [], some 7⟩ "manual"
      (by decide)]
    decide

/-! ## Credential sourcing: `APIKeyManager._load_api_keys` (lines 32-61)

`str.split(",")` and `str.strip()` are modelled on character lists;
`ui_keys` stands for `storage.get_active_keys()` (the storage collaborator
succeeded; the `except` path just yields `ui_keys = []`). -/

/-- Python `s.split(",")`: the comma-separated pieces; `"".split(",")` is
`[""]`. -/
def splitComma : List Char → List (List Char)
  | [] => [[]]
  | c :: rest =>
    match splitComma rest with
    | a :: as => if c = ',' then [] :: a :: as else (c :: a) :: as
    | [] => [[]]

/-- Python `s.strip()`: drop whitespace from both ends. -/
def stripChars (cs : List Char) : List Char :=
  ((cs.dropWhile Char.isWhitespace).reverse.dropWhile Char.isWhitespace).reverse

/-- The environment portion (lines 37-45): if the multi-key variable is a
non-empty string, its comma-split, stripped, non-empty entries — with NO
deduplication (`keys.extend(env_keys)`); `elif` means the single-key
variable is consulted only when the multi-key variable is unset/empty. -/
def env_keys (single_key multi_keys : String) : List String :=
  if multi_keys ≠ "" then
    (((splitComma multi_keys.toList).map stripChars).filter
      (fun k => k ≠ [])).map String.mk
  else if single_key ≠ "" then [single_key]
  else []

/-- One step of the UI-key merge loop (lines 54-56): append only if the
exact value is not already present. -/
def addUiKey (ks : List String) (u : String) : List String :=
  if u ∈ ks then ks else ks ++ [u]

/-- `_load_api_keys` (lines 32-61). -/
def load_api_keys (single_key multi_keys : String) (ui_keys : List String) :
    List String :=
  ui_keys.foldl addUiKey (env_keys single_key multi_keys)

lemma mem_addUiKey_self (ks : List String) (u : String) : u ∈ addUiKey ks u := by
  unfold addUiKey
  split_ifs with h
  · exact h
  · simp

lemma mem_addUiKey_of_mem {ks : List String} {x : String} (u : String)
    (h : x ∈ ks) : x ∈ addUiKey ks u := by
  unfold addUiKey
  split_ifs <;> simp [h]

lemma foldl_addUiKey_mem_of_mem :
    ∀ (ui ks : List String) (x : String), x ∈ ks → x ∈ ui.foldl addUiKey ks := by
  intro ui
  induction ui with
  | nil => intro ks x h; exact h
  | cons u us ih => intro ks x h; exact ih _ _ (mem_addUiKey_of_mem u h)

lemma foldl_addUiKey_mem_ui :
    ∀ (ui ks : List String) (u : String), u ∈ ui → u ∈ ui.foldl addUiKey ks := by
  intro ui
  induction ui with
  | nil => intro ks u h; simp at h
  | cons v vs ih =>
    intro ks u hu
    rcases List.mem_cons.mp hu with rfl | h
    · exact foldl_addUiKey_mem_of_mem vs _ u (mem_addUiKey_self ks u)
    · exact ih _ u h

lemma isPrefixTrans {a b c : List String} (h1 : a <+: b) (h2 : b <+: c) :
    a <+: c := by
  obtain ⟨t1, ht1⟩ := h1
  obtain ⟨t2, ht2⟩ := h2
  exact ⟨t1 ++ t2, by rw [← ht2, ← ht1, List.append_assoc]⟩

lemma isPrefix_addUiKey (ks : List String) (u : String) : ks <+: addUiKey ks u := by
  unfold addUiKey
  split_ifs
  · exact ⟨[], by simp⟩
  · exact ⟨[u], rfl⟩

lemma isPrefix_foldl_addUiKey :
    ∀ (ui ks : List String), ks <+: ui.foldl addUiKey ks := by
  intro ui
  induction ui with
  | nil => intro ks; exact ⟨[], by simp⟩
  | cons u us ih =>
    intro ks
    exact isPrefixTrans (isPrefix_addUiKey ks u) (ih (addUiKey ks u))

lemma mem_foldl_addUiKey :
    ∀ (ui ks : List String) (x : String),
      x ∈ ui.foldl addUiKey ks → x ∈ ks ∨ x ∈ ui := by
  intro ui
  induction ui with
  | nil => intro ks x h; exact Or.inl h
  | cons u us ih =>
    intro ks x h
    rcases ih _ x h with h1 | h1
    · unfold addUiKey at h1
      split_ifs at h1 with hmem
      · exact Or.inl h1
      · rcases List.mem_append.mp h1 with h2 | h2
        · exact Or.inl h2
        · simp only [List.mem_singleton] at h2
          subst h2
          exact Or.inr (by simp)
    · exact Or.inr (by simp [h1])

lemma nodup_addUiKey {ks : List String} (h : ks.Nodup) (u : String) :
    (addUiKey ks u).Nodup := by
  unfold addUiKey
  split_ifs with hm
  · exact h
  · simp [List.nodup_append, h, hm]

lemma nodup_foldl_addUiKey :
    ∀ (ui ks : List String), ks.Nodup → (ui.foldl addUiKey ks).Nodup := by
  intro ui
  induction ui with
  | nil => intro ks h; exact h
  | cons u us ih => intro ks h; exact ih _ (nodup_addUiKey h u)

/-- C4 counterexample: with the single-key variable `"A"` and the multi-key
variable `"B,B"`, the resulting pool list is `["B", "B"]`: it contains two
equal values (duplicates inside the multi-key variable are never removed),
and the configured value `"A"` is absent (the `elif` discards the
single-key variable whenever the multi-key variable is set). -/
theorem C4_counterexample :
    load_api_keys "A" "B,B" [] = ["B", "B"] ∧
    ¬ (load_api_keys "A" "B,B" []).Nodup ∧
    "A" ∉ load_api_keys "A" "B,B" [] := by
  refine ⟨by decide, by decide, by decide⟩

/-- C4 (amended): the pool list is the environment selection (the
comma-split, stripped, non-empty entries of the multi-key variable if that
variable is set, otherwise the single-key value if set) followed, in order,
by each storage key not already present.  Storage keys are deduplicated
against the list and every storage key appears; the environment portion is
kept verbatim as a prefix (duplicates inside the multi-key variable are
kept, and the single-key value is ignored whenever the multi-key variable
is set); no other values appear; and the result has no duplicates whenever
the environment portion has none. -/
theorem C4_load_api_keys_amended :
    (∀ (single multi : String) (ui : List String) (u : String), u ∈ ui →
      u ∈ load_api_keys single multi ui) ∧
    (∀ (single multi : String) (ui : List String),
      env_keys single multi <+: load_api_keys single multi ui) ∧
    (∀ (single multi : String) (ui : List String) (x : String),
      x ∈ load_api_keys single multi ui →
      x ∈ env_keys single multi ∨ x ∈ ui) ∧
    (∀ (single multi : String) (ui : List String),
      (env_keys single multi).Nodup → (load_api_keys single multi ui).Nodup) := by
  refine ⟨?_, ?_, ?_, ?_⟩
  · intro single multi ui u hu
    exact foldl_addUiKey_mem_ui ui _ u hu
  · intro single multi ui
    exact isPrefix_foldl_addUiKey ui _
  · intro single multi ui x hx
    exact mem_foldl_addUiKey ui _ x hx
  · intro single multi ui h
    exact nodup_foldl_addUiKey ui _ h

/-- C4 witness: the amended theorem at a concrete configuration. -/
theorem C4_load_api_keys_amended_witness :
    "S1" ∈ load_api_keys "A" "B,C" ["S1", "B"] ∧
    env_keys "A" "B,C" <+: load_api_keys "A" "B,C" ["S1", "B"] ∧
    ("B" ∈ env_keys "A" "B,C" ∨ "B" ∈ ["S1", "B"]) ∧
    (load_api_keys "A" "B,C" ["S1", "B"]).Nodup := by
  refine ⟨?_, ?_, ?_, ?_⟩
  · exact C4_load_api_keys_amended.1 "A" "B,C" ["S1", "B"] "S1" (by decide)
  · exact C4_load_api_keys_amended.2.1 "A" "B,C" ["S1", "B"]
  · exact C4_load_api_keys_amended.2.2.1 "A" "B,C" ["S1", "B"] "B" (by decide)
  · exact C4_load_api_keys_amended.2.2.2 "A" "B,C" ["S1", "B"] (by decide)

/-! ## Paginator: `get_playlist_videos` (lines 306-341) and `search_videos`
(lines 392-435)

Both functions run the identical loop: while fewer than `max_results` ids
are collected, request a page (asking for `min(50, max_results - len)`
items), append every id the page carries, and stop when the response has no
`nextPageToken`.  The remote service is modelled as the stream of pages it
returns, consumed in order; a page's item list holds the ids actually
extracted (`videoId` present).  The loop trusts the service: nothing is
truncated after appending. -/

structure Page where
  items : List String
  nextPageToken : Option String
deriving Repr, DecidableEq

/-- The `while len(video_ids) < max_results` loop.  An exhausted stream acts
like a page with no items and no token, so the loop returns `video_ids`
unchanged whether or not the length test passes — the `[]` case merges the
two. -/
def fetchLoop : List Page → Nat → List String → List String
  | [], _, video_ids => video_ids
  | p :: rest, max_results, video_ids =>
    if video_ids.length < max_results then
      match p.nextPageToken with
      | none => video_ids ++ p.items
      | some _ => fetchLoop rest max_results (video_ids ++ p.items)
    else video_ids

/-- `get_playlist_videos` / `search_videos`: run the loop from an empty
collection. -/
def get_playlist_videos (pages : List Page) (max_results : Nat) : List String :=
  fetchLoop pages max_results []

/-- Total number of items the service has on offer: the items of every page
up to and including the first page without a continuation token. -/
def totalAvailable : List Page → Nat
  | [] => 0
  | p :: rest =>
    match p.nextPageToken with
    | none => p.items.length
    | some _ => p.items.length + totalAvailable rest

/-- The page stream conforms to the protocol for a run with bound
`max_results` starting from `n` collected items: every page that the loop
would consume carries at most the `min(50, max_results - n)` items the
request asked for. -/
def conforms : List Page → Nat → Nat → Bool
  | [], _, _ => true
  | p :: rest, max_results, n =>
    if n < max_results then
      decide (p.items.length ≤ min 50 (max_results - n)) &&
        (match p.nextPageToken with
         | none => true
         | some _ => conforms rest max_results (n + p.items.length))
    else true

lemma fetchLoop_length :
    ∀ (pages : List Page) (maxr : Nat) (acc : List String),
      conforms pages maxr acc.length = true → acc.length ≤ maxr →
      (fetchLoop pages maxr acc).length =
        min maxr (acc.length + totalAvailable pages) := by
  intro pages
  induction pages with
  | nil =>
    intro maxr acc hc hle
    show acc.length = min maxr (acc.length + totalAvailable [])
    simp only [totalAvailable, Nat.add_zero]
    exact (Nat.min_eq_right hle).symm
  | cons p rest ih =>
    intro maxr acc hc hle
    simp only [fetchLoop]
    simp only [conforms] at hc
    by_cases h : acc.length < maxr
    · rw [if_pos h]
      rw [if_pos h, Bool.and_eq_true] at hc
      have hb : p.items.length ≤ min 50 (maxr - acc.length) := by
        have h1 := hc.1
        simpa using h1
      have hb2 : p.items.length ≤ maxr - acc.length :=
        le_trans hb (Nat.min_le_right _ _)
      rcases htok : p.nextPageToken with _ | tok
      · show (acc ++ p.items).length = min maxr (acc.length + totalAvailable (p :: rest))
        have htot : totalAvailable (p :: rest) = p.items.length := by
          simp only [totalAvailable]
          rw [htok]
        rw [htot, List.length_append, Nat.min_eq_right (by omega)]
      · show (fetchLoop rest maxr (acc ++ p.items)).length =
          min maxr (acc.length + totalAvailable (p :: rest))
        rw [htok] at hc
        have hrec : conforms rest maxr (acc.length + p.items.length) = true := hc.2
        have hlen2 : (acc ++ p.items).length = acc.length + p.items.length :=
          List.length_append acc p.items
        have hih := ih maxr (acc ++ p.items) (by rw [hlen2]; exact hrec)
          (by rw [hlen2]; omega)
        rw [hih, hlen2]
        have htot : totalAvailable (p :: rest) =
            p.items.length + totalAvailable rest := by
          simp only [totalAvailable]
          rw [htok]
        rw [htot, Nat.add_assoc]
    · rw [if_neg h]
      have hacc : acc.length = maxr := by omega
      rw [hacc, Nat.min_eq_left (Nat.le_add_right _ _)]

/-- C2 counterexample: the service is asked for 1 item but the (only) page
carries 2; `get_playlist_videos` appends both and returns a list of length
2, not `min(1, totalAvailable) = 1` — the code never truncates `collected`
to `max`. -/
theorem C2_counterexample :
    get_playlist_videos [⟨["a", "b"], none⟩] 1 = ["a", "b"] ∧
    (get_playlist_videos [⟨["a", "b"], none⟩] 1).length = 2 ∧
    min 1 (totalAvailable [⟨["a", "b"], none⟩]) = 1 ∧
    (2 : Nat) ≠ 1 := by
  decide

/-- C2 (amended): the result has length exactly
`min(max_results, totalAvailable)` PROVIDED each consumed page carries at
most the `min(50, max_results - collected)` items the request asked for;
without that conformance the code keeps every item of an over-full last
page (no truncation is performed). -/
theorem C2_paginator_amended (pages : List Page) (max_results : Nat)
    (hc : conforms pages max_results 0 = true) :
    (get_playlist_videos pages max_results).length =
      min max_results (totalAvailable pages) := by
  have h := fetchLoop_length pages max_results []
    (by simpa using hc) (by simp)
  simpa using h

/-- C2 witness: a conforming two-page stream (1 + 1 items) fetched with
`max_results = 2` yields exactly 2 ids. -/
theorem C2_paginator_amended_witness :
    (get_playlist_videos [⟨["a"], some "t"⟩, ⟨["b"], none⟩] 2).length = 2 := by
  have h := C2_paginator_amended [⟨["a"], some "t"⟩, ⟨["b"], none⟩] 2
    (by decide)
  rw [h]
  decide

/-! ## RequestExecutor: one attempt of `_make_api_request` (lines 194-221)

Per attempt the code: gets the current key, performs the HTTP call, parses
the body, and classifies.  `is_quota_error(data)` → `rotate_key` and
another loop iteration; otherwise `response.raise_for_status()` raises
`requests.exceptions.HTTPError` for any 4xx/5xx — an exception that IS a
`requests.exceptions.RequestException`, so the `except` arm catches it and
re-raises `YouTubeAPIError(f"Network error: \x7be\x7d")`, exactly as it
does for timeouts and connection failures; otherwise the parsed body is
returned.  The classification of one obtained response is embedded below;
the HTTP status, the server's reason phrase and the url determine the
`HTTPError` text that requests produces. -/

/-- Python values as found in a parsed JSON response body. -/
inductive PyVal where
  | str (s : String)
  | int (n : Int)
  | list (xs : List PyVal)
  | dict (kvs : List (String × PyVal))

/-- Python `d.get(k)` on a dict. -/
def dictGet (kvs : List (String × PyVal)) (k : String) : Option PyVal :=
  (kvs.find? (fun kv => kv.1 = k)).map (fun kv => kv.2)

/-- `d.get(k)` when a string is expected (`== "..."` comparisons are false
for non-strings). -/
def dictGetStr (kvs : List (String × PyVal)) (k : String) : Option String :=
  match dictGet kvs k with
  | some (.str s) => some s
  | _ => none

/-- `d.get(k)` when an integer is expected (`== 403` is false for
non-integers). -/
def dictGetInt (kvs : List (String × PyVal)) (k : String) : Option Int :=
  match dictGet kvs k with
  | some (.int n) => some n
  | _ => none

/-- A single-quote character, as Python `repr` puts around strings. -/
def sq : String := String.mk [Char.ofNat 39]

mutual
/-- Python `str(...)` of a parsed-JSON value: quoted strings inside
containers, `\x7b...\x7d` dicts, `[...]` lists. -/
def pyRepr : PyVal → String
  | .str s => sq ++ s ++ sq
  | .int n => toString n
  | .list xs => "[" ++ String.intercalate ", " (pyReprList xs) ++ "]"
  | .dict kvs => "\x7b" ++ String.intercalate ", " (pyReprKVs kvs) ++ "\x7d"

def pyReprList : List PyVal → List String
  | [] => []
  | x :: xs => pyRepr x :: pyReprList xs

def pyReprKVs : List (String × PyVal) → List String
  | [] => []
  | (k, v) :: kvs => (sq ++ k ++ sq ++ ": " ++ pyRepr v) :: pyReprKVs kvs
end

/-- `"quota" in str(error).lower()` (line 137). -/
def quotaInStr (v : PyVal) : Bool :=
  decide ("quota".toList <:+: (pyRepr v).toLower.toList)

/-- The `for err in errors` loop (lines 132-135): `some true` when an entry
carries `reason == "quotaExceeded"`, `some false` when the loop completes
without finding one, and `none` when a non-dict entry is reached — Python
raises an uncaught `AttributeError` on `err.get` there (an earlier matching
dict entry still returns `True` first, so order matters). -/
def scanErrors : List PyVal → Option Bool
  | [] => some false
  | e :: rest =>
    match e with
    | .dict d =>
      if dictGetStr d "reason" == some "quotaExceeded" then some true
      else scanErrors rest
    | _ => none

/-- The fallback check (line 137): `error.get("code") == 403 and "quota" in
str(error).lower()`.  `== 403` is true only for the integer; `str()` and
`in` cannot raise here. -/
def codeCheck (ekvs : List (String × PyVal)) : Bool :=
  (dictGetInt ekvs "code" == some 403) && quotaInStr (.dict ekvs)

/-- `APIKeyManager.is_quota_error` (lines 127-139), with Python's uncaught
exceptions made explicit: `some b` is a normal return of `b`; `none` is an
uncaught `AttributeError`/`TypeError` escaping the method
(`_make_api_request`'s `except` arm catches only `RequestException`, so it
crashes the whole call).  The crashing shapes, traced from the Python:
a non-dict entry reached in the `errors` list (`err.get`,
`AttributeError`); a non-list `errors` value — a non-empty string iterates
its characters and a non-empty dict its keys, each a string without `.get`
(`AttributeError`), while an int is not iterable at all (`TypeError`); an
empty string or empty dict iterates zero times and falls through to the
fallback check; and a non-dict response body in which `"error" in
response_data` succeeds (list membership / substring), whereupon the
`response_data["error"]` subscript raises `TypeError`.  A non-dict `error`
value fails `isinstance` and returns `False`; a missing `errors` key
defaults to the empty list. -/
def is_quota_error (data : PyVal) : Option Bool :=
  match data with
  | .dict kvs =>
    match dictGet kvs "error" with
    | some (.dict ekvs) =>
      (match dictGet ekvs "errors" with
       | some (.list l) =>
         match scanErrors l with
         | some true => some true
         | some false => some (codeCheck ekvs)
         | none => none
       | some (.str s) => if s = "" then some (codeCheck ekvs) else none
       | some (.dict d) => if d.isEmpty then some (codeCheck ekvs) else none
       | some (.int _) => none
       | none => some (codeCheck ekvs))
    | some _ => some false
    | none => some false
  | .list xs =>
    if xs.any (fun v => match v with | .str s => s = "error" | _ => false) then
      none
    else some false
  | .str s => if "error".toList <:+: s.toList then none else some false
  | .int _ => none

/-- Outcome of one loop iteration of `_make_api_request`: a returned body,
a quota rotation followed by another iteration, a raised `YouTubeAPIError`,
or an uncaught Python exception (`AttributeError`/`TypeError` out of
`is_quota_error`) escaping the function. -/
inductive AttemptStep where
  | success (data : PyVal)
  | rotateRetry
  | raiseError (msg : String)
  | uncaughtError

/-- The text of the `requests.exceptions.HTTPError` that
`raise_for_status()` produces for a 4xx/5xx status. -/
def http_error_string (status : Nat) (reason url : String) : String :=
  if status < 500 then
    toString status ++ " Client Error: " ++ reason ++ " for url: " ++ url
  else
    toString status ++ " Server Error: " ++ reason ++ " for url: " ++ url

/-- Classification of one obtained response (lines 206-221): the quota
check runs first; if it crashes, the exception escapes (only
`RequestException` is caught); quota bodies rotate and retry; any other
4xx/5xx becomes the caught-and-rewrapped
`YouTubeAPIError("Network error: " + str(HTTPError))`; everything else is a
success carrying the parsed body. -/
def classify_response (status : Nat) (reason url : String) (body : PyVal) :
    AttemptStep :=
  match is_quota_error body with
  | none => .uncaughtError
  | some true => .rotateRetry
  | some false =>
    if 400 ≤ status ∧ status < 600 then
      .raiseError ("Network error: " ++ http_error_string status reason url)
    else .success body

/-- The outcome of a timeout / connection / DNS / TLS failure (line 221):
`YouTubeAPIError(f"Network error: \x7be\x7d")`. -/
def network_failure (excText : String) : AttemptStep :=
  .raiseError ("Network error: " ++ excText)

lemma take_toList_append (a b : String) :
    (a ++ b).toList.take a.toList.length = a.toList := by
  show (a.data ++ b.data).take a.data.length = a.data
  exact List.take_left a.data b.data

/-- C3 counterexample: a 500 response whose body is a normally-shaped,
non-quota error is raised as
`YouTubeAPIError("Network error: 500 Server Error: ...")` — the same
constructor and the same `"Network error: "` prefix as a genuine
connection failure, with the response body absent from the message.  It is
not retried, but it is NOT surfaced distinctly from `NetworkError`, and it
carries no `UpstreamError` identity. -/
theorem C3_counterexample :
    classify_response 500 "Internal Server Error" "https://x"
        (PyVal.dict [("error", PyVal.dict [("code", PyVal.int 500),
          ("message", PyVal.str "Backend Error")])]) =
      AttemptStep.raiseError
        "Network error: 500 Server Error: Internal Server Error for url: https://x" ∧
    network_failure "Read timed out." =
      AttemptStep.raiseError "Network error: Read timed out." ∧
    ("Network error: 500 Server Error: Internal Server Error for url: https://x").toList.take 15 =
      "Network error: ".toList ∧
    ("Network error: Read timed out.").toList.take 15 =
      "Network error: ".toList := by
  refine ⟨rfl, rfl, by decide, by decide⟩

/-- C3 (amended): for every response whose HTTP status is 4xx/5xx and whose
body the quota check actually classifies as non-quota (`is_quota_error`
returns `False` rather than crashing), the attempt raises — without
retrying — the same `YouTubeAPIError` used for network failures, with
message `"Network error: " + str(HTTPError)` (status and reason, not the
body); upstream HTTP failures are therefore NOT surfaced distinctly from
timeout/connection errors.  On bodies where the quota check itself crashes
(e.g. a non-dict entry in the `errors` list), no `YouTubeAPIError` is
raised at all: the `AttributeError` escapes uncaught, as the second
conjunct shows at a concrete such body. -/
theorem C3_upstream_merged_with_network :
    (∀ (status : Nat) (reason url : String) (body : PyVal),
      is_quota_error body = some false → 400 ≤ status → status < 600 →
      classify_response status reason url body =
        AttemptStep.raiseError
          ("Network error: " ++ http_error_string status reason url) ∧
      ("Network error: " ++ http_error_string status reason url).toList.take 15 =
        "Network error: ".toList) ∧
    classify_response 500 "Internal Server Error" "https://x"
        (PyVal.dict [("error", PyVal.dict [("errors",
          PyVal.list [PyVal.str "boom"])])]) = AttemptStep.uncaughtError := by
  constructor
  · intro status reason url body hq h4 h6
    constructor
    · unfold classify_response
      rw [hq]
      rw [if_pos ⟨h4, h6⟩]
    · have h15 : ("Network error: ").toList.length = 15 := by decide
      rw [← h15]
      exact take_toList_append "Network error: " (http_error_string status reason url)
  · rfl

/-- C3 witness: the amended theorem at a concrete 404 with a body the quota
check returns `False` on. -/
theorem C3_upstream_merged_with_network_witness :
    classify_response 404 "Not Found" "https://api/videos" (PyVal.dict []) =
      AttemptStep.raiseError
        ("Network error: " ++ http_error_string 404 "Not Found" "https://api/videos") := by
  exact (C3_upstream_merged_with_network.1 404 "Not Found" "https://api/videos"
    (PyVal.dict []) rfl (by decide) (by decide)).1

end YoutubeApi
